import Mathlib

/-!
Shallow embedding of the navigation-and-bid synchronization engine of the
mandelbrot frontend (src/src/components/controller.rs), together with the
parts of the remote-ledger wrapper it relies on.

Modelling conventions:
* `u128` ids and `Address` values are modelled as `Nat`.
* `f64` amounts and coordinates are modelled as `ℚ`; no claim below depends
  on floating-point rounding, only on which values are combined.
* `HashMap<u128, _>` collections are modelled as association lists
  `List (Nat × _)`; the map's key-uniqueness is stated as a hypothesis where
  a claim needs it.
* `Vec<Metadata>` (`nav_history`) is a `List Metadata`, front = oldest.
* asynchronous completion of a remote call is modelled as a state
  transformer applied when the response arrives; the response itself is an
  `Option` value (`none` = the RPC failed).
-/

namespace Mandelbrot

/-- Bounding box in fractal-plane coordinates (`Field` in `src/evm/types`,
visible in `src/main.rs`: `x_min, y_min, x_max, y_max`). -/
structure Field where
  x_min : ℚ
  y_min : ℚ
  x_max : ℚ
  y_max : ℚ
deriving DecidableEq, Repr

/-- Territory metadata (`Metadata`): token id, parent id, region, owner,
escrowed value, minimum bid price, and the derived viewer-ownership flag
(`owned`, mutated by `check_ownership`). -/
structure Metadata where
  token_id : Nat
  parent_id : Nat
  field : Field
  owner : Nat
  locked_fuel : ℚ
  minimum_price : ℚ
  owned : Bool
deriving DecidableEq, Repr

/-- A pending subdivision bid (`Bid`): bid id, recipient, region, offered
amount, minimum price of the future territory, the derived viewer-ownership
flag and the local-only `selected` flag. -/
structure Bid where
  bid_id : Nat
  recipient : Nat
  field : Field
  amount : ℚ
  minimum_price : ℚ
  owned : Bool
  selected : Bool
deriving DecidableEq, Repr

/-- `mandelbrot_explorer::FrameColor` as matched in `on_frame_selected`
(controller.rs lines 143-183): Red/Pink/Blue/LightBlue classify territory
frames, Yellow/Lemon pending bids, Green selected bids. -/
inductive FrameColor where
  | Red
  | Pink
  | Blue
  | LightBlue
  | Yellow
  | Lemon
  | Green
deriving DecidableEq, Repr

/-- `mandelbrot_explorer::Frame`: the spatial primitive handed to the
renderer (id, region, color class). -/
structure Frame where
  id : Nat
  field : Field
  color : FrameColor
deriving DecidableEq, Repr

/-- The well-known root token id: `#[prop_or(1)] token_id` (controller.rs
line 27) and the fallback `view_nft(1)` (line 63). -/
def rootTokenId : Nat := 1

/-- `Metadata::to_frame(color)` from `src/evm/types` (the module is not under
src/; its callers fix the shape). Modelled from the spec: wraps the entity's
`region` and `id` into the primitive consumed by the rendering collaborator,
tagged with the given color class. -/
def Metadata.to_frame (m : Metadata) (color : FrameColor) : Frame :=
  { id := m.token_id, field := m.field, color := color }

/-- `Bid::to_frame()` from `src/evm/types` (the module is not under src/).
Modelled from the spec: a bid the user has toggled on renders in the
selected-bid class (Green); an unselected bid renders in a pending-bid class
(Yellow, or the alternate Lemon — the spec does not fix the alternate's
discriminator, so it is keyed on the viewer-ownership flag here; no claim
distinguishes the two pending classes). -/
def Bid.to_frame (b : Bid) : Frame :=
  { id := b.bid_id, field := b.field,
    color := if b.selected then FrameColor.Green
             else if b.owned then FrameColor.Lemon else FrameColor.Yellow }

/-- The push half of the territory branch of `on_frame_selected`
(controller.rs lines 150-155): scan the `children` map and append the child
whose key equals the selected frame id, if any. -/
def push_child (children : List (Nat × Metadata)) (nav : List Metadata)
    (frameId : Nat) : List Metadata :=
  match children.find? (fun p => p.1 == frameId) with
  | some p => nav ++ [p.2]
  | none => nav

/-- The truncation half of the territory branch of `on_frame_selected`
(controller.rs lines 156-161): walk the path from the end
(`enumerate().rev()`) and truncate to `i + 1` at the first element whose
`token_id` equals the frame id, i.e. at its last occurrence. -/
def truncate_at_id (nav : List Metadata) (frameId : Nat) : List Metadata :=
  match nav.reverse.findIdx? (fun t => t.token_id == frameId) with
  | some j => nav.take (nav.length - j)
  | none => nav

/-- The full territory branch of `on_frame_selected` (controller.rs lines
144-168): push the matching child if present, truncate at the selected id,
and trigger `obtain_tokens(frame.id)` — the second component is the id the
children/bids refresh is issued for. -/
def on_frame_selected_territory (children : List (Nat × Metadata))
    (nav : List Metadata) (frameId : Nat) : List Metadata × Nat :=
  (truncate_at_id (push_child children nav frameId) frameId, frameId)

/-- The bid-flag mutation shared by the Yellow/Lemon/Green branches of
`on_frame_selected` (lines 171-180) and by `on_bid_toggled` (lines 296-298):
`bids.get_mut(&bid_id)` followed by `bid.selected = state`; an absent id
changes nothing. -/
def set_bid_selected (bids : List (Nat × Bid)) (bidId : Nat) (state : Bool) :
    List (Nat × Bid) :=
  bids.map (fun p => if p.1 == bidId then (p.1, { p.2 with selected := state }) else p)

/-- `total_approve_amount` as computed in `on_bid_toggled` (lines 300-303)
and in `view` (line 356): the sum of `amount` over bids with
`selected == true`. -/
def selected_total (bids : List (Nat × Bid)) : ℚ :=
  ((bids.filter (fun p => p.2.selected)).map (fun p => p.2.amount)).sum

/-- The children half of an `obtain_tokens` completion (controller.rs lines
73-77): on `Ok(metadata)` clear the map and repopulate it keyed by
`token_id`; on `Err` leave it untouched. -/
def replace_children (children : List (Nat × Metadata))
    (resp : Option (List Metadata)) : List (Nat × Metadata) :=
  match resp with
  | some ms => ms.map (fun m => (m.token_id, m))
  | none => children

/-- The bids half of an `obtain_tokens` completion (controller.rs lines
78-82): on `Ok(bids)` clear the map and repopulate it keyed by `bid_id`; on
`Err` leave it untouched. -/
def replace_bids (bids : List (Nat × Bid)) (resp : Option (List Bid)) :
    List (Nat × Bid) :=
  match resp with
  | some bs => bs.map (fun b => (b.bid_id, b))
  | none => bids

/-- `check_ownership` (controller.rs lines 90-102): when an account address
is present, stamp `owned = (owner == address)` on every child and path
element and `owned = (recipient == address)` on every bid; when the address
is `None` the whole body is skipped. -/
def check_ownership (address : Option Nat) (children : List (Nat × Metadata))
    (bids : List (Nat × Bid)) (nav : List Metadata) :
    List (Nat × Metadata) × List (Nat × Bid) × List Metadata :=
  match address with
  | some a =>
      (children.map (fun p => (p.1, { p.2 with owned := p.2.owner == a })),
       bids.map (fun p => (p.1, { p.2 with owned := p.2.recipient == a })),
       nav.map (fun t => { t with owned := t.owner == a }))
  | none => (children, bids, nav)

/-- `update_frames` (controller.rs lines 104-114): clear the renderer's
frame list and extend it with, in order, the children (Red), the bids
(via `Bid::to_frame`), and the navigation history iterated in reverse
(Blue). -/
def update_frames (children : List (Nat × Metadata)) (bids : List (Nat × Bid))
    (nav : List Metadata) : List Frame :=
  (children.map (fun p => p.2.to_frame FrameColor.Red)
    ++ bids.map (fun p => p.2.to_frame))
    ++ nav.reverse.map (fun t => t.to_frame FrameColor.Blue)

/-- The navigation effect of `view_nft` (controller.rs lines 52-67), with the
ancestry RPC as a deterministic oracle `anc` and explicit fuel bounding the
observed recursion depth: on `Ok(metadata)` the path is cleared and rebuilt
reversed (lines 56-58); on `Err` the code calls `view_nft(1)` again
(line 63), which repeats the same logic against the root id. -/
def view_nft_go (anc : Nat → Option (List Metadata)) :
    Nat → Nat → List Metadata → List Metadata
  | 0, _, nav => nav
  | fuel + 1, tokenId, nav =>
    match anc tokenId with
    | some metadata => metadata.reverse
    | none => view_nft_go anc fuel 1 nav

/-- How many fallback calls `view_nft` issues within the given fuel: every
failed ancestry fetch triggers exactly one recursive `view_nft(1)`
(controller.rs line 63), so each failure counts one retry. -/
def view_nft_retries (anc : Nat → Option (List Metadata)) : Nat → Nat → Nat
  | 0, _ => 0
  | fuel + 1, tokenId =>
    match anc tokenId with
    | some _ => 0
    | none => 1 + view_nft_retries anc fuel 1

/-- Modelled from the spec: the remote-ledger wrapper used by the controller
is constructed with the external error callback (controller.rs line 131
passes `ctx.props().handle_error` to `ERC1155Contract::new`; the wrapper
with that constructor is not under src/). Per the spec, a failed remote
call is surfaced once, verbatim, to the error sink and then returned as a
failure; a successful call leaves the sink alone. Errors are opaque `Nat`
tokens here. -/
def remote_call_reporting {α : Type} (resp : Option α) (sink : List Nat)
    (err : Nat) : Option α × List Nat :=
  match resp with
  | some v => (some v, sink)
  | none => (none, sink ++ [err])

/-- A `loadChildren` round as the controller runs it (controller.rs lines
73-77 plus the spec-modelled error reporting of the wrapper): the remote
result goes through the reporting wrapper, then the `Ok` branch atomically
replaces the map while the `Err` branch leaves it untouched. -/
def load_children_step (children : List (Nat × Metadata))
    (resp : Option (List Metadata)) (sink : List Nat) (err : Nat) :
    List (Nat × Metadata) × List Nat :=
  let r := remote_call_reporting resp sink err
  (replace_children children r.1, r.2)

/-- A bid as the remote `getBids` call delivers it, before deserialization
adds the local-only fields. -/
structure RemoteBid where
  bid_id : Nat
  recipient : Nat
  field : Field
  amount : ℚ
  minimum_price : ℚ
deriving DecidableEq, Repr

/-- Modelled from the spec: `Bid` deserialization (`crate::evm::types`, not
under src/) initializes the local-only `selected` flag to `false` — the
spec fixes `selected` as "local-only UI flag, not persisted remotely, reset
to false whenever the underlying bid set is refreshed" — and the derived
`owned` flag to `false` until `check_ownership` recomputes it. -/
def RemoteBid.to_local (rb : RemoteBid) : Bid :=
  { bid_id := rb.bid_id, recipient := rb.recipient, field := rb.field,
    amount := rb.amount, minimum_price := rb.minimum_price,
    owned := false, selected := false }

/-- Decoding of a successful `getBids` response: each remote bid enters the
client as its local form. -/
def get_bids_decode (rbs : List RemoteBid) : List Bid :=
  rbs.map RemoteBid.to_local

/-- The events that touch `BidSet`: a toggle (`on_bid_toggled` /
the Yellow/Lemon/Green branches of `on_frame_selected`) and a successful
bid refresh (`obtain_tokens` lines 78-82). -/
inductive BidEvent where
  | toggle (bid_id : Nat) (state : Bool)
  | refresh (rbs : List RemoteBid)
deriving DecidableEq, Repr

/-- One `BidSet` mutation (controller.rs lines 296-298 resp. 78-82). -/
def bid_step (bids : List (Nat × Bid)) : BidEvent → List (Nat × Bid)
  | BidEvent.toggle bidId state => set_bid_selected bids bidId state
  | BidEvent.refresh rbs => replace_bids bids (some (get_bids_decode rbs))

/-- A chronological sequence of `BidSet` mutations. -/
def bid_run (bids : List (Nat × Bid)) (es : List BidEvent) : List (Nat × Bid) :=
  es.foldl bid_step bids

/-- Claim-side tracker for C8, following the claim's words rather than the
code: through the history, an id counts as selected exactly when it was
toggled selected while present in the set and has not since been deselected
or replaced; a refresh resets membership to the fetched ids and selection to
none. `mem`/`sel` carry membership and selection per id. -/
def claimed_selected (mem sel : Nat → Bool) : List BidEvent → (Nat → Bool) × (Nat → Bool)
  | [] => (mem, sel)
  | BidEvent.toggle bidId state :: rest =>
      claimed_selected mem
        (fun k => if mem bidId && (k == bidId) then state else sel k) rest
  | BidEvent.refresh rbs :: rest =>
      claimed_selected (fun k => rbs.any (fun rb => rb.bid_id == k))
        (fun _ => false) rest

/-- The parent-chain condition of §3: each element's `parent_id` is the
previous element's `token_id`. -/
def chain_ok : List Metadata → Bool
  | [] => true
  | [_] => true
  | a :: b :: rest => (b.parent_id == a.token_id) && chain_ok (b :: rest)

/-- The full `NavigationPath` invariant of §3: the path is nonempty, starts
at the well-known root id, and satisfies the parent chain. -/
def path_ok (nav : List Metadata) : Bool :=
  (match nav.head? with
   | some r => r.token_id == rootTokenId
   | none => false) && chain_ok nav

/-- Consistency of the `children` map with the current path: every entry is
keyed by its territory's `token_id` (as `obtain_tokens` builds it) and is a
child of the path's last element. -/
def children_ok (children : List (Nat × Metadata)) (nav : List Metadata) : Bool :=
  match nav.getLast? with
  | some lastTok =>
      children.all (fun p => p.1 == p.2.token_id && p.2.parent_id == lastTok.token_id)
  | none => true

/-- A sequence of territory-frame selections (descends): each step carries
the `children` map in force at that moment and the selected frame id. -/
def descend_seq (nav : List Metadata)
    (steps : List (List (Nat × Metadata) × Nat)) : List Metadata :=
  steps.foldl (fun n step => (on_frame_selected_territory step.1 n step.2).1) nav

/-- Out-of-order completion of children refreshes: each arriving successful
response runs the replace of `obtain_tokens` lines 73-77, in arrival order.
The code carries no request id, so every response is applied. -/
def apply_refresh_completions (children : List (Nat × Metadata))
    (resps : List (List Metadata)) : List (Nat × Metadata) :=
  resps.foldl (fun ch r => replace_children ch (some r)) children

/-- The renderer list as claim C6 words it (for comparison with
`update_frames`): children of the current node in one class, bids colored by
selection state, and the navigation path excluding the current node in a
third class, in path order (root-first). -/
def render_list_claimed (children : List (Nat × Metadata))
    (bids : List (Nat × Bid)) (nav : List Metadata) : List Frame :=
  (children.map (fun p => p.2.to_frame FrameColor.Red)
    ++ bids.map (fun p => p.2.to_frame))
    ++ nav.dropLast.map (fun t => t.to_frame FrameColor.Blue)

/-- Concrete territory used by witnesses and counterexamples: id, parent id,
all other fields zeroed. -/
def mkMeta (i pid : Nat) : Metadata :=
  { token_id := i, parent_id := pid, field := ⟨0, 0, 0, 0⟩, owner := 0,
    locked_fuel := 0, minimum_price := 0, owned := false }

/-- Concrete bid used by witnesses and counterexamples. -/
def mkBid (i recip : Nat) (amt : ℚ) (own sel : Bool) : Bid :=
  { bid_id := i, recipient := recip, field := ⟨0, 0, 0, 0⟩, amount := amt,
    minimum_price := 0, owned := own, selected := sel }

theorem push_child_of_find?_none {children : List (Nat × Metadata)}
    {nav : List Metadata} {frameId : Nat}
    (h : children.find? (fun p => p.1 == frameId) = none) :
    push_child children nav frameId = nav := by
  unfold push_child
  rw [h]

theorem truncate_at_id_of_mem {nav : List Metadata} {frameId : Nat}
    (h : ∃ t ∈ nav, t.token_id = frameId) :
    ∃ k, k < nav.length ∧ truncate_at_id nav frameId = nav.take (k + 1) ∧
      ∃ t, nav[k]? = some t ∧ t.token_id = frameId := by
  have hany : nav.reverse.any (fun t => t.token_id == frameId) = true := by
    obtain ⟨t, ht, hid⟩ := h
    rw [List.any_eq_true]
    exact ⟨t, by simpa using ht, by simp [hid]⟩
  have hsome : (nav.reverse.findIdx? (fun t => t.token_id == frameId)).isSome = true := by
    rw [List.findIdx?_isSome]
    exact hany
  obtain ⟨j, hj⟩ := Option.isSome_iff_exists.mp hsome
  have hj' := hj
  rw [List.findIdx?_eq_some_iff_getElem] at hj'
  obtain ⟨hlt, hpj, -⟩ := hj'
  have hlen : j < nav.length := by simpa using hlt
  refine ⟨nav.length - 1 - j, by omega, ?_, ?_⟩
  · unfold truncate_at_id
    rw [hj]
    show nav.take (nav.length - j) = nav.take (nav.length - 1 - j + 1)
    congr 1
    omega
  · refine ⟨nav.reverse[j], ?_, ?_⟩
    · rw [← List.getElem?_reverse hlen]
      exact (List.getElem?_eq_getElem hlt).symm.symm
    · simpa using hpj

/-- C1 (amended): if the selected id is not a key of the current
`ChildrenSet` — as tree consistency guarantees whenever the id already sits
on the path — then a territory-frame selection on an id present in
`NavigationPath` truncates the path to the prefix ending exactly at the
(last) element with that id, appending nothing. -/
theorem descend_ancestor_truncates (children : List (Nat × Metadata))
    (nav : List Metadata) (frameId : Nat)
    (hchild : children.find? (fun p => p.1 == frameId) = none)
    (hmem : ∃ t ∈ nav, t.token_id = frameId) :
    ∃ k, k < nav.length ∧
      (on_frame_selected_territory children nav frameId).1 = nav.take (k + 1) ∧
      ∃ t, nav[k]? = some t ∧ t.token_id = frameId := by
  unfold on_frame_selected_territory
  rw [push_child_of_find?_none hchild]
  exact truncate_at_id_of_mem hmem

theorem descend_ancestor_truncates_witness :
    ∃ k, k < 4 ∧
      (on_frame_selected_territory []
        [mkMeta 1 0, mkMeta 2 1, mkMeta 3 2, mkMeta 4 3] 2).1
        = [mkMeta 1 0, mkMeta 2 1, mkMeta 3 2, mkMeta 4 3].take (k + 1) ∧
      ∃ t, [mkMeta 1 0, mkMeta 2 1, mkMeta 3 2, mkMeta 4 3][k]? = some t ∧
        t.token_id = 2 :=
  descend_ancestor_truncates []
    [mkMeta 1 0, mkMeta 2 1, mkMeta 3 2, mkMeta 4 3] 2 (by decide) (by decide)

/-- C1 (counterexample): in a state where the selected id sits both in
`NavigationPath` (index 1) and in `ChildrenSet`, the code first appends the
child and only then truncates at the LAST occurrence, so the path grows from
4 to 5 elements and carries the id twice — the descend neither truncates the
path to `[root, A]` nor avoids the duplicate the claim rules out. -/
theorem descend_ancestor_in_children_appends :
    ((on_frame_selected_territory [(2, mkMeta 2 4)]
        [mkMeta 1 0, mkMeta 2 1, mkMeta 3 2, mkMeta 4 3] 2).1
      = [mkMeta 1 0, mkMeta 2 1, mkMeta 3 2, mkMeta 4 3, mkMeta 2 4])
    ∧ ¬ ((on_frame_selected_territory [(2, mkMeta 2 4)]
        [mkMeta 1 0, mkMeta 2 1, mkMeta 3 2, mkMeta 4 3] 2).1
      = [mkMeta 1 0, mkMeta 2 1])
    ∧ ((on_frame_selected_territory [(2, mkMeta 2 4)]
        [mkMeta 1 0, mkMeta 2 1, mkMeta 3 2, mkMeta 4 3] 2).1.countP
          (fun t => t.token_id == 2) = 2) := by
  decide

/-- C10: a territory-frame selection whose id is neither a key of the
current `ChildrenSet` nor the id of any `NavigationPath` element leaves the
path exactly as it was, while the children/bids refresh is still issued for
that id (the second component of the result). -/
theorem descend_unknown_id_no_op (children : List (Nat × Metadata))
    (nav : List Metadata) (frameId : Nat)
    (hchild : ∀ p ∈ children, p.1 ≠ frameId)
    (hnav : ∀ t ∈ nav, t.token_id ≠ frameId) :
    on_frame_selected_territory children nav frameId = (nav, frameId) := by
  unfold on_frame_selected_territory
  have h1 : children.find? (fun p => p.1 == frameId) = none := by
    rw [List.find?_eq_none]
    intro p hp
    simpa using hchild p hp
  rw [push_child_of_find?_none h1]
  have h2 : nav.reverse.findIdx? (fun t => t.token_id == frameId) = none := by
    rw [List.findIdx?_eq_none_iff]
    intro t ht
    simpa using hnav t (List.mem_reverse.mp ht)
  unfold truncate_at_id
  rw [h2]

/-- C3 (amended): when the ancestry fetch for the queried id fails and the
fallback fetch against the well-known root id succeeds with the root-only
ancestry, the engine performs exactly one retry — against the root id — and
`NavigationPath` becomes exactly `[root]`, for any observation depth that
covers both calls. -/
theorem view_nft_failure_falls_back_to_root
    (anc : Nat → Option (List Metadata)) (tokenId : Nat) (nav : List Metadata)
    (fuel : Nat) (rootM : Metadata)
    (hfail : anc tokenId = none) (hroot : anc rootTokenId = some [rootM])
    (hfuel : 2 ≤ fuel) :
    view_nft_go anc fuel tokenId nav = [rootM] ∧
    view_nft_retries anc fuel tokenId = 1 := by
  have hroot1 : anc 1 = some [rootM] := hroot
  obtain ⟨k, rfl⟩ : ∃ k, fuel = k + 2 := ⟨fuel - 2, by omega⟩
  constructor
  · simp [view_nft_go, hfail, hroot1]
  · simp [view_nft_retries, hfail, hroot1]

theorem view_nft_failure_falls_back_to_root_witness :
    view_nft_go (fun t => if t = 1 then some [mkMeta 1 0] else none) 2 7
        [mkMeta 9 1] = [mkMeta 1 0] ∧
    view_nft_retries (fun t => if t = 1 then some [mkMeta 1 0] else none) 2 7 = 1 :=
  view_nft_failure_falls_back_to_root
    (fun t => if t = 1 then some [mkMeta 1 0] else none) 7 [mkMeta 9 1] 2
    (mkMeta 1 0) (by decide) (by decide) (by decide)

/-- C3 (counterexample): when the fallback fetch against the root id itself
keeps failing, `view_nft` keeps calling itself — within recursion depth 3 it
has already retried 3 times, and `NavigationPath` is left unchanged rather
than becoming `[root]`; the claim's "retries exactly once … not retried more
than once" is false on the code. -/
theorem view_nft_all_failures_retry_repeatedly :
    view_nft_retries (fun _ => none) 3 7 = 3 ∧
    ¬ (view_nft_retries (fun _ => none) 3 7 ≤ 1) ∧
    view_nft_go (fun _ => none) 3 7 [mkMeta 9 1] = [mkMeta 9 1] := by
  decide

/-- C4 (code evaluated at the failing input): `obtain_tokens` carries no
request id; every completed refresh unconditionally clears and repopulates
the collection. With refresh R1 (children `[mkMeta 5 1]`) issued before R2
(children `[mkMeta 6 1]`) but completing after it, the completions arrive in
order R2, R1 and the collection ends in R1's state, not R2's — the
discard-stale-response law the claim states does not hold on the code. -/
theorem stale_children_response_overwrites :
    apply_refresh_completions [] [[mkMeta 6 1], [mkMeta 5 1]]
      = [(5, mkMeta 5 1)] ∧
    apply_refresh_completions [] [[mkMeta 6 1], [mkMeta 5 1]]
      ≠ [(6, mkMeta 6 1)] := by
  decide

/-- C5: when the children fetch fails, the previous `ChildrenSet` is
returned completely untouched and the failure token is appended — once — to
the external error sink (the sink forwarding is spec-modelled from the
wrapper built with `handle_error`, which is not under src/). -/
theorem load_children_failure_keeps_children_and_reports
    (children : List (Nat × Metadata)) (sink : List Nat) (err : Nat) :
    load_children_step children none sink err = (children, sink ++ [err]) := rfl

/-- C6 (amended): the flat primitive list the renderer receives decomposes
into three segments — the children of the current node, all in the Red
territory class; the bids of the current node, colored by selection state
(Green exactly when selected, a pending class Yellow/Lemon otherwise); and
then the FULL navigation path including the current node, in the Blue path
class, in reverse path order (current-first). -/
theorem update_frames_segments (c : List (Nat × Metadata)) (b : List (Nat × Bid))
    (nav : List Metadata) :
    (update_frames c b nav).length = c.length + b.length + nav.length ∧
    (update_frames c b nav).take c.length
      = c.map (fun p => p.2.to_frame FrameColor.Red) ∧
    ((update_frames c b nav).drop c.length).take b.length
      = b.map (fun p => p.2.to_frame) ∧
    (update_frames c b nav).drop (c.length + b.length)
      = (nav.map (fun t => t.to_frame FrameColor.Blue)).reverse ∧
    (∀ p ∈ b, (p.2.to_frame.color = FrameColor.Green ↔ p.2.selected = true)) ∧
    (∀ p ∈ b, p.2.selected = false →
      p.2.to_frame.color = FrameColor.Yellow ∨ p.2.to_frame.color = FrameColor.Lemon) := by
  refine ⟨?_, ?_, ?_, ?_, ?_, ?_⟩
  · simp only [update_frames, List.length_append, List.length_map,
      List.length_reverse]
  · rw [update_frames, List.append_assoc]
    exact List.take_left' (List.length_map c _)
  · rw [update_frames, List.append_assoc,
      List.drop_left' (List.length_map c _)]
    exact List.take_left' (List.length_map b _)
  · rw [update_frames, List.map_reverse]
    refine List.drop_left' ?_
    rw [List.length_append, List.length_map, List.length_map]
  · intro p _
    cases hsel : p.2.selected <;> cases how : p.2.owned <;>
      simp [Bid.to_frame, hsel, how]
  · intro p _ hsel
    cases how : p.2.owned <;> simp [Bid.to_frame, hsel, how]

theorem update_frames_segments_witness :
    (update_frames [(3, mkMeta 3 2)]
        [(7, mkBid 7 4 5 false true), (8, mkBid 8 4 6 false false)]
        [mkMeta 1 0, mkMeta 2 1]).length = 1 + 2 + 2 ∧
    (update_frames [(3, mkMeta 3 2)]
        [(7, mkBid 7 4 5 false true), (8, mkBid 8 4 6 false false)]
        [mkMeta 1 0, mkMeta 2 1]).take 1
      = [(3, mkMeta 3 2)].map (fun p => p.2.to_frame FrameColor.Red) ∧
    ((update_frames [(3, mkMeta 3 2)]
        [(7, mkBid 7 4 5 false true), (8, mkBid 8 4 6 false false)]
        [mkMeta 1 0, mkMeta 2 1]).drop 1).take 2
      = [(7, mkBid 7 4 5 false true), (8, mkBid 8 4 6 false false)].map
          (fun p => p.2.to_frame) ∧
    (update_frames [(3, mkMeta 3 2)]
        [(7, mkBid 7 4 5 false true), (8, mkBid 8 4 6 false false)]
        [mkMeta 1 0, mkMeta 2 1]).drop (1 + 2)
      = ([mkMeta 1 0, mkMeta 2 1].map
          (fun t => t.to_frame FrameColor.Blue)).reverse ∧
    (∀ p ∈ [(7, mkBid 7 4 5 false true), (8, mkBid 8 4 6 false false)],
      (p.2.to_frame.color = FrameColor.Green ↔ p.2.selected = true)) ∧
    (∀ p ∈ [(7, mkBid 7 4 5 false true), (8, mkBid 8 4 6 false false)],
      p.2.selected = false →
      p.2.to_frame.color = FrameColor.Yellow ∨ p.2.to_frame.color = FrameColor.Lemon) :=
  update_frames_segments [(3, mkMeta 3 2)]
    [(7, mkBid 7 4 5 false true), (8, mkBid 8 4 6 false false)]
    [mkMeta 1 0, mkMeta 2 1]

/-- C6 (counterexample): with an empty `ChildrenSet`/`BidSet` and the path
`[root (id 1), current (id 2)]`, the code emits Blue frames `[id 2, id 1]` —
the current node IS included and the order is current-first — while the
claim's words (path excluding the current node, root-first) demand `[id 1]`. -/
theorem update_frames_includes_current_reversed :
    update_frames [] [] [mkMeta 1 0, mkMeta 2 1]
      ≠ render_list_claimed [] [] [mkMeta 1 0, mkMeta 2 1] ∧
    (update_frames [] [] [mkMeta 1 0, mkMeta 2 1]).map Frame.id = [2, 1] ∧
    (render_list_claimed [] [] [mkMeta 1 0, mkMeta 2 1]).map Frame.id = [1] := by
  decide

/-- C7 (amended): with `activeAccount == None` the ownership tagger is the
identity — it leaves every entity's `isOwnedByViewer` flag unchanged; in
particular every entity whose flag is `false` (as all freshly fetched
entities are) still carries `false` afterwards. -/
theorem check_ownership_none_id :
    (∀ (c : List (Nat × Metadata)) (b : List (Nat × Bid)) (n : List Metadata),
      check_ownership none c b n = (c, b, n)) ∧
    (∀ (c : List (Nat × Metadata)) (b : List (Nat × Bid)) (n : List Metadata),
      c.all (fun p => p.2.owned == false) = true →
      b.all (fun p => p.2.owned == false) = true →
      n.all (fun t => t.owned == false) = true →
      (check_ownership none c b n).1.all (fun p => p.2.owned == false) = true ∧
      (check_ownership none c b n).2.1.all (fun p => p.2.owned == false) = true ∧
      (check_ownership none c b n).2.2.all (fun t => t.owned == false) = true) := by
  constructor
  · intro c b n
    rfl
  · intro c b n hc hb hn
    exact ⟨hc, hb, hn⟩

theorem check_ownership_none_id_witness :
    check_ownership none [(5, mkMeta 5 1)] [(7, mkBid 7 2 3 false false)]
        [mkMeta 1 0]
      = ([(5, mkMeta 5 1)], [(7, mkBid 7 2 3 false false)], [mkMeta 1 0]) ∧
    ((check_ownership none [(5, mkMeta 5 1)] [(7, mkBid 7 2 3 false false)]
        [mkMeta 1 0]).1.all (fun p => p.2.owned == false) = true ∧
     (check_ownership none [(5, mkMeta 5 1)] [(7, mkBid 7 2 3 false false)]
        [mkMeta 1 0]).2.1.all (fun p => p.2.owned == false) = true ∧
     (check_ownership none [(5, mkMeta 5 1)] [(7, mkBid 7 2 3 false false)]
        [mkMeta 1 0]).2.2.all (fun t => t.owned == false) = true) :=
  ⟨check_ownership_none_id.1 [(5, mkMeta 5 1)] [(7, mkBid 7 2 3 false false)]
      [mkMeta 1 0],
   check_ownership_none_id.2 [(5, mkMeta 5 1)] [(7, mkBid 7 2 3 false false)]
      [mkMeta 1 0] (by decide) (by decide) (by decide)⟩

/-- C7 (counterexample): a bid tagged `isOwnedByViewer = true` under a
connected account keeps that flag when the tagger runs with
`activeAccount == None` — the claim's "yields isOwnedByViewer = false for
that entity" is false on the code, whose `check_ownership` body is skipped
entirely when no address is present. -/
theorem check_ownership_none_keeps_stale_flag :
    (check_ownership none [] [(9, mkBid 9 3 5 true true)] []).2.1
      = [(9, mkBid 9 3 5 true true)] ∧
    ((check_ownership none [] [(9, mkBid 9 3 5 true true)] []).2.1.all
      (fun p => p.2.owned == false)) = false := by
  decide

theorem chain_ok_take : ∀ (l : List Metadata) (n : Nat),
    chain_ok l = true → chain_ok (l.take n) = true
  | [], n, _ => by simp [chain_ok]
  | [a], n, _ => by cases n <;> simp [chain_ok]
  | a :: b :: rest, 0, _ => by simp [chain_ok]
  | a :: b :: rest, 1, _ => by simp [chain_ok]
  | a :: b :: rest, n + 2, h => by
      unfold chain_ok at h
      rw [Bool.and_eq_true] at h
      have ih := chain_ok_take (b :: rest) (n + 1) h.2
      simp only [List.take_succ_cons] at ih ⊢
      unfold chain_ok
      rw [Bool.and_eq_true]
      exact ⟨h.1, ih⟩

theorem chain_ok_append_last : ∀ (l : List Metadata) (lastTok x : Metadata),
    l.getLast? = some lastTok → chain_ok l = true →
    (x.parent_id == lastTok.token_id) = true → chain_ok (l ++ [x]) = true
  | [], lastTok, x, hlast, _, _ => by simp at hlast
  | [a], lastTok, x, hlast, _, hx => by
      simp only [List.getLast?_singleton, Option.some.injEq] at hlast
      subst hlast
      simpa [chain_ok] using hx
  | a :: b :: rest, lastTok, x, hlast, hchain, hx => by
      rw [List.getLast?_cons_cons] at hlast
      unfold chain_ok at hchain
      rw [Bool.and_eq_true] at hchain
      have ih := chain_ok_append_last (b :: rest) lastTok x hlast hchain.2 hx
      show (b.parent_id == a.token_id && chain_ok (b :: (rest ++ [x]))) = true
      rw [Bool.and_eq_true]
      exact ⟨hchain.1, by simpa using ih⟩

theorem path_ok_take_succ {l : List Metadata} {n : Nat}
    (h : path_ok l = true) : path_ok (l.take (n + 1)) = true := by
  unfold path_ok at h ⊢
  rw [Bool.and_eq_true] at h ⊢
  refine ⟨?_, chain_ok_take l (n + 1) h.2⟩
  rw [List.head?_take]
  simpa using h.1

theorem truncate_at_id_path_ok {nav : List Metadata} {frameId : Nat}
    (h : path_ok nav = true) : path_ok (truncate_at_id nav frameId) = true := by
  unfold truncate_at_id
  cases hidx : nav.reverse.findIdx? (fun t => t.token_id == frameId) with
  | none => exact h
  | some j =>
      have hj := hidx
      rw [List.findIdx?_eq_some_iff_getElem] at hj
      obtain ⟨hlt, -, -⟩ := hj
      have hlen : j < nav.length := by simpa using hlt
      show path_ok (nav.take (nav.length - j)) = true
      have : nav.length - j = nav.length - j - 1 + 1 := by omega
      rw [this]
      exact path_ok_take_succ h

theorem push_child_path_ok {children : List (Nat × Metadata)}
    {nav : List Metadata} {frameId : Nat}
    (hpath : path_ok nav = true) (hch : children_ok children nav = true) :
    path_ok (push_child children nav frameId) = true := by
  unfold push_child
  cases hfind : children.find? (fun p => p.1 == frameId) with
  | none => exact hpath
  | some p =>
      have hmem : p ∈ children := List.mem_of_find?_eq_some hfind
      have hne : nav ≠ [] := by
        intro hnil
        rw [hnil] at hpath
        simp [path_ok] at hpath
      obtain ⟨lastTok, hlast⟩ := Option.isSome_iff_exists.mp
        (List.getLast?_isSome.mpr hne)
      unfold children_ok at hch
      rw [hlast] at hch
      rw [List.all_eq_true] at hch
      have hp := hch p hmem
      rw [Bool.and_eq_true] at hp
      unfold path_ok at hpath ⊢
      rw [Bool.and_eq_true] at hpath ⊢
      constructor
      · rw [List.head?_append]
        cases hhd : nav.head? with
        | none => rw [hhd] at hpath; simp at hpath
        | some r => rw [hhd] at hpath; simpa using hpath.1
      · exact chain_ok_append_last nav lastTok p.2 hlast hpath.2 hp.2

theorem descend_preserves_path_ok {children : List (Nat × Metadata)}
    {nav : List Metadata} {frameId : Nat}
    (hpath : path_ok nav = true) (hch : children_ok children nav = true) :
    path_ok (on_frame_selected_territory children nav frameId).1 = true := by
  unfold on_frame_selected_territory
  exact truncate_at_id_path_ok (push_child_path_ok hpath hch)

theorem descend_seq_cons (nav : List Metadata)
    (s : List (Nat × Metadata) × Nat) (l : List (List (Nat × Metadata) × Nat)) :
    descend_seq nav (s :: l)
      = descend_seq (on_frame_selected_territory s.1 nav s.2).1 l := rfl

/-- C2: along any sequence of territory-frame selections, if the path
satisfies the §3 invariant (nonempty, root-first, parent chain) at the start
and the `ChildrenSet` in force at each step holds children of the
then-current path's last element, the invariant holds again after every
step. -/
theorem descend_seq_preserves_invariant :
    ∀ (steps : List (List (Nat × Metadata) × Nat)) (nav : List Metadata),
    path_ok nav = true →
    (∀ i ch fid, steps[i]? = some (ch, fid) →
      children_ok ch (descend_seq nav (steps.take i)) = true) →
    ∀ i, path_ok (descend_seq nav (steps.take i)) = true
  | [], nav, hpath, _, i => by
      simpa [descend_seq] using hpath
  | s :: rest, nav, hpath, hsteps, 0 => by
      simpa [descend_seq] using hpath
  | s :: rest, nav, hpath, hsteps, i + 1 => by
      rw [List.take_succ_cons, descend_seq_cons]
      have hch0 : children_ok s.1 nav = true := by
        have := hsteps 0 s.1 s.2 (by simp)
        simpa [descend_seq] using this
      have hpath1 : path_ok (on_frame_selected_territory s.1 nav s.2).1 = true :=
        descend_preserves_path_ok hpath hch0
      refine descend_seq_preserves_invariant rest _ hpath1 ?_ i
      intro i' ch fid h
      have := hsteps (i' + 1) ch fid (by simpa using h)
      rw [List.take_succ_cons, descend_seq_cons] at this
      exact this

theorem descend_seq_preserves_invariant_witness :
    path_ok (descend_seq [mkMeta 1 0] ([([(2, mkMeta 2 1)], 2)].take 1)) = true := by
  refine descend_seq_preserves_invariant [([(2, mkMeta 2 1)], 2)] [mkMeta 1 0]
    (by decide) ?_ 1
  intro i ch fid h
  cases i with
  | zero =>
      rw [List.getElem?_cons_zero, Option.some.injEq] at h
      rw [Prod.mk.injEq] at h
      rw [← h.1]
      decide
  | succ n => simp at h

/-- C9: every bid present after a successful `BidSet` replace carries
`selected = false`, whatever was selected before the refresh (the
deserializer's reset of the local-only flag is spec-modelled in
`RemoteBid.to_local`). -/
theorem replace_bids_resets_selection (bids : List (Nat × Bid))
    (rbs : List RemoteBid) :
    (replace_bids bids (some (get_bids_decode rbs))).all
      (fun p => p.2.selected == false) = true := by
  rw [List.all_eq_true]
  intro p hp
  simp only [replace_bids, get_bids_decode, List.map_map] at hp
  obtain ⟨rb, -, rfl⟩ := List.mem_map.mp hp
  rfl

theorem set_bid_selected_keys (bids : List (Nat × Bid)) (bidId : Nat) (s : Bool) :
    (set_bid_selected bids bidId s).map Prod.fst = bids.map Prod.fst := by
  unfold set_bid_selected
  rw [List.map_map]
  refine List.map_congr_left ?_
  intro p _
  by_cases h : p.1 = bidId <;> simp [h]

theorem any_map_general {α β : Type} (f : α → β) (p : β → Bool) :
    ∀ (l : List α), (l.map f).any p = l.any (fun a => p (f a))
  | [] => rfl
  | a :: rest => by
      simp only [List.map_cons, List.any_cons]
      rw [any_map_general f p rest]

theorem key_any_eq_map_any (bids : List (Nat × Bid)) (k : Nat) :
    bids.any (fun p => p.1 == k) = (bids.map Prod.fst).any (fun x => x == k) := by
  rw [any_map_general]

/-- The inductive link between the code's `BidSet` and the claim-side
per-id tracker: membership agrees with the keys and every stored `selected`
flag agrees with the tracked one. -/
def bids_track_ok (mem sel : Nat → Bool) (bids : List (Nat × Bid)) : Prop :=
  (∀ k, mem k = bids.any (fun p => p.1 == k)) ∧
  (∀ p ∈ bids, p.2.selected = sel p.1)

theorem bids_track_ok_toggle {mem sel : Nat → Bool} {bids : List (Nat × Bid)}
    (h : bids_track_ok mem sel bids) (bidId : Nat) (s : Bool) :
    bids_track_ok mem (fun k => if mem bidId && (k == bidId) then s else sel k)
      (set_bid_selected bids bidId s) := by
  obtain ⟨hmem, hsel⟩ := h
  constructor
  · intro k
    rw [hmem k, key_any_eq_map_any, key_any_eq_map_any, set_bid_selected_keys]
  · intro p hp
    unfold set_bid_selected at hp
    obtain ⟨q, hq, hpq⟩ := List.mem_map.mp hp
    by_cases hid : (q.1 == bidId) = true
    · rw [if_pos hid] at hpq
      have hmemId : mem bidId = true := by
        rw [hmem bidId]
        exact List.any_eq_true.mpr ⟨q, hq, hid⟩
      rw [← hpq]
      show s = if mem bidId && (q.1 == bidId) then s else sel q.1
      rw [hmemId, hid]
      rfl
    · rw [if_neg hid] at hpq
      rw [← hpq]
      show q.2.selected = if mem bidId && (q.1 == bidId) then s else sel q.1
      rw [Bool.eq_false_iff.mpr hid]
      rw [Bool.and_false]
      simpa using hsel q hq

theorem bids_track_ok_refresh (rbs : List RemoteBid) (bids : List (Nat × Bid)) :
    bids_track_ok (fun k => rbs.any (fun rb => rb.bid_id == k)) (fun _ => false)
      (bid_step bids (BidEvent.refresh rbs)) := by
  constructor
  · intro k
    show rbs.any (fun rb => rb.bid_id == k)
      = ((get_bids_decode rbs).map (fun b => (b.bid_id, b))).any (fun p => p.1 == k)
    unfold get_bids_decode
    rw [List.map_map, any_map_general]
    rfl
  · intro p hp
    simp only [bid_step, replace_bids, get_bids_decode, List.map_map] at hp
    obtain ⟨rb, -, rfl⟩ := List.mem_map.mp hp
    rfl

theorem bid_run_track_ok :
    ∀ (es : List BidEvent) (mem sel : Nat → Bool) (bids : List (Nat × Bid)),
    bids_track_ok mem sel bids →
    bids_track_ok (claimed_selected mem sel es).1 (claimed_selected mem sel es).2
      (bid_run bids es)
  | [], mem, sel, bids, h => by
      simpa [claimed_selected, bid_run] using h
  | BidEvent.toggle bidId s :: rest, mem, sel, bids, h => by
      have h1 := bids_track_ok_toggle h bidId s
      have h2 := bid_run_track_ok rest mem
        (fun k => if mem bidId && (k == bidId) then s else sel k)
        (set_bid_selected bids bidId s) h1
      simpa [claimed_selected, bid_run, bid_step, List.foldl_cons] using h2
  | BidEvent.refresh rbs :: rest, mem, sel, bids, h => by
      have h1 := bids_track_ok_refresh rbs bids
      have h2 := bid_run_track_ok rest
        (fun k => rbs.any (fun rb => rb.bid_id == k)) (fun _ => false)
        (bid_step bids (BidEvent.refresh rbs)) h1
      simpa [claimed_selected, bid_run, List.foldl_cons] using h2

/-- C8: (i) after any event history from the empty startup store, the bids
the code stores as `selected` are exactly the ids the claim's tracker marks
(toggled selected while present and not since deselected or replaced), so
`selectedTotal` sums `amount` over exactly those bids; (ii) toggling a bid
id absent from the current `BidSet` is a no-op that changes neither the set
nor the total. -/
theorem selected_total_matches_history :
    (∀ (es : List BidEvent),
      (∀ p ∈ bid_run [] es,
        p.2.selected
          = (claimed_selected (fun _ => false) (fun _ => false) es).2 p.1) ∧
      selected_total (bid_run [] es)
        = (((bid_run [] es).filter
            (fun p => (claimed_selected (fun _ => false) (fun _ => false) es).2 p.1)).map
              (fun p => p.2.amount)).sum) ∧
    (∀ (bids : List (Nat × Bid)) (bidId : Nat) (s : Bool),
      (∀ p ∈ bids, p.1 ≠ bidId) →
      set_bid_selected bids bidId s = bids ∧
      selected_total (set_bid_selected bids bidId s) = selected_total bids) := by
  constructor
  · intro es
    have h0 : bids_track_ok (fun _ => false) (fun _ => false) [] := by
      constructor
      · intro k
        rfl
      · intro p hp
        simp at hp
    have h := bid_run_track_ok es (fun _ => false) (fun _ => false) [] h0
    refine ⟨h.2, ?_⟩
    unfold selected_total
    rw [List.filter_congr h.2]
  · intro bids bidId s hne
    have hid : set_bid_selected bids bidId s = bids := by
      unfold set_bid_selected
      have : ∀ p ∈ bids,
          (if p.1 == bidId then (p.1, { p.2 with selected := s }) else p) = p := by
        intro p hp
        rw [if_neg]
        intro hbeq
        exact hne p hp (by simpa using hbeq)
      rw [List.map_congr_left this]
      exact List.map_id bids
    exact ⟨hid, by rw [hid]⟩

theorem selected_total_matches_history_witness :
    ((∀ p ∈ bid_run []
        [BidEvent.refresh [⟨4, 2, ⟨0, 0, 0, 0⟩, 7, 1⟩], BidEvent.toggle 4 true],
      p.2.selected
        = (claimed_selected (fun _ => false) (fun _ => false)
            [BidEvent.refresh [⟨4, 2, ⟨0, 0, 0, 0⟩, 7, 1⟩],
             BidEvent.toggle 4 true]).2 p.1) ∧
      selected_total (bid_run []
        [BidEvent.refresh [⟨4, 2, ⟨0, 0, 0, 0⟩, 7, 1⟩], BidEvent.toggle 4 true])
        = (((bid_run []
            [BidEvent.refresh [⟨4, 2, ⟨0, 0, 0, 0⟩, 7, 1⟩],
             BidEvent.toggle 4 true]).filter
            (fun p => (claimed_selected (fun _ => false) (fun _ => false)
              [BidEvent.refresh [⟨4, 2, ⟨0, 0, 0, 0⟩, 7, 1⟩],
               BidEvent.toggle 4 true]).2 p.1)).map
              (fun p => p.2.amount)).sum) ∧
    (set_bid_selected [(9, mkBid 9 3 5 false false)] 4 true
        = [(9, mkBid 9 3 5 false false)] ∧
      selected_total (set_bid_selected [(9, mkBid 9 3 5 false false)] 4 true)
        = selected_total [(9, mkBid 9 3 5 false false)]) :=
  ⟨selected_total_matches_history.1
      [BidEvent.refresh [⟨4, 2, ⟨0, 0, 0, 0⟩, 7, 1⟩], BidEvent.toggle 4 true],
   selected_total_matches_history.2 [(9, mkBid 9 3 5 false false)] 4 true
      (by decide)⟩

theorem descend_unknown_id_no_op_witness :
    on_frame_selected_territory [(5, mkMeta 5 2)] [mkMeta 1 0, mkMeta 2 1] 9
      = ([mkMeta 1 0, mkMeta 2 1], 9) :=
  descend_unknown_id_no_op [(5, mkMeta 5 2)] [mkMeta 1 0, mkMeta 2 1] 9
    (by decide) (by decide)

end Mandelbrot
